import Mathlib

/-!
Shallow embedding of the `eptdir` directory-cleaning tool
(`rust_eptdir/eptdir/src/lib.rs`).

The filesystem is modelled as a finite tree of nodes.  Every filesystem
primitive the Rust code calls (`fs::read_dir`, per-entry iteration,
`fs::remove_file`, `fs::remove_dir`) may fail with an OS error; those
possible failures are modelled by optional per-node fault codes carried in
the node's metadata:

* `DirMeta.readFail`  — the `fs::read_dir` call made while scanning the
  directory's entries (the read in `remove_junk_files`, and the first read
  in `remove_empty_dirs`) fails with the given code;
* `DirMeta.readFail2` — the second `fs::read_dir` call in
  `remove_empty_dirs` (the re-enumeration after recursion) fails;
* `DirMeta.iterFail`  — iterating the entries of a successfully opened
  directory yields an `Err` entry (the `entry?` in the loops, and the
  `entries.next()` of the emptiness check);
* `DirMeta.removeFail` / `FileMeta.removeFail` — `fs::remove_dir` /
  `fs::remove_file` on this node fails.

A `none` fault means the corresponding primitive succeeds.  File and
directory base names are `OsName`s: either valid text or an undecodable
byte sequence (`OsName.toStr` mirrors `OsStr::to_str`).

Each embedded function returns its Rust `Result` together with the
resulting filesystem state (the subtree rooted at the argument, `none`
when the node was deleted), so frame conditions are statable even on
error paths.

The recursion of the Rust functions goes through the directory body
(`remove_junk_files` / `remove_empty_dirs` call themselves on each
subdirectory).  So that the Lean recursion is structural, the directory
body of each of the two recursive functions is inlined at the point where
a subdirectory is visited (`junkStep`, `collapseSubdirs`), and the
Rust-named entry points `remove_junk_files` / `remove_empty_dirs` are
definitional wrappers; the lemmas `junkStep_dir` and
`remove_empty_dirs_dir` state that the inlined bodies agree exactly with
the entry points, so the embedding has the same call structure as the
source.
-/

namespace Eptdir

/-- OS error code carried by a `Box<dyn std::error::Error>`. -/
abbrev ErrCode := Nat

/-- A file or directory base name: valid text, or bytes that cannot be
decoded as UTF-8 (identified by an arbitrary code). -/
inductive OsName where
  | valid : String → OsName
  | invalid : Nat → OsName
deriving DecidableEq, Repr

/-- Mirrors `OsStr::to_str`: `some` exactly for decodable names. -/
def OsName.toStr : OsName → Option String
  | .valid s => some s
  | .invalid _ => none

/-- The junk-file denylist, `pub const JUNK_FILES` in lib.rs. -/
def JUNK_FILES : List String := ["thumbs.db", ".DS_Store"]

/-- Metadata of a regular file: its base name and an optional injected
failure of `fs::remove_file` on it. -/
structure FileMeta where
  name : OsName
  removeFail : Option ErrCode
deriving DecidableEq, Repr

/-- Metadata of a directory: its base name and the optional injected
failures of the filesystem primitives applied to it. -/
structure DirMeta where
  name : OsName
  readFail : Option ErrCode
  readFail2 : Option ErrCode
  iterFail : Option ErrCode
  removeFail : Option ErrCode
deriving DecidableEq, Repr

mutual

/-- A filesystem node: a regular file or a directory with its entries,
listed in enumeration order. -/
inductive Node where
  | file : FileMeta → Node
  | dir : DirMeta → NodeList → Node

/-- A directory listing, in enumeration order. -/
inductive NodeList where
  | nil : NodeList
  | cons : Node → NodeList → NodeList

end

/-- Prepend an optional surviving node to a listing. -/
def optCons : Option Node → NodeList → NodeList
  | none, l => l
  | some n, l => .cons n l

/-- Is the listing empty?  This is what `entries.next().is_none()` sees
when iteration raises no error. -/
def NodeList.isNil : NodeList → Bool
  | .nil => true
  | .cons _ _ => false

/-- Does the decodable base name match the denylist?  This is the
`JUNK_FILES.contains(&name_str)` test guarded by `to_str`: an undecodable
name is never a match. -/
def OsName.isJunk (n : OsName) : Bool :=
  match n.toStr with
  | some s => JUNK_FILES.contains s
  | none => false

mutual

/-- The entry loop of `remove_junk_files`: entries processed in order,
counts summed, the first error aborting the loop with the remaining
entries untouched. -/
def junkSweep : NodeList → Except ErrCode Nat × NodeList
  | .nil => (.ok 0, .nil)
  | .cons n rest =>
    match junkStep n with
    | (.error e, n₁) => (.error e, optCons n₁ rest)
    | (.ok k, n₁) =>
      match junkSweep rest with
      | (.error e, rest₁) => (.error e, optCons n₁ rest₁)
      | (.ok k₂, rest₁) => (.ok (k + k₂), optCons n₁ rest₁)

/-- One iteration of the `remove_junk_files` loop body on a single entry:
a file is deleted when its decodable base name is in `JUNK_FILES`
(`fs::remove_file(&path)?`), a directory is recursed into — the
recursive call `remove_junk_files(&path)?` is inlined here
(`fs::read_dir(dir)?`, `entry?`, then the loop); `junkStep_dir` states
the agreement with `remove_junk_files`. -/
def junkStep : Node → Except ErrCode Nat × Option Node
  | .file fm =>
    match fm.name.toStr with
    | some s =>
      if JUNK_FILES.contains s then
        match fm.removeFail with
        | some e => (.error e, some (.file fm))
        | none => (.ok 1, none)
      else (.ok 0, some (.file fm))
    | none => (.ok 0, some (.file fm))
  | .dir dm cs =>
    match dm.readFail with
    | some e => (.error e, some (.dir dm cs))
    | none =>
      match dm.iterFail with
      | some e => (.error e, some (.dir dm cs))
      | none =>
        match junkSweep cs with
        | (r, cs₁) => (r, some (.dir dm cs₁))

end

/-- Embeds `remove_junk_files(dir)` from lib.rs, applied to a directory
with metadata `m` and entries `cs`: `fs::read_dir(dir)?` (its failure,
or a failing `entry?`, propagates with the listing untouched), then the
entry loop.  Returns the Rust result (count of deleted files, or the
first propagated error) and the directory's resulting entry list. -/
def remove_junk_files (m : DirMeta) (cs : NodeList) :
    Except ErrCode Nat × NodeList :=
  match m.readFail with
  | some e => (.error e, cs)
  | none =>
    match m.iterFail with
    | some e => (.error e, cs)
    | none => junkSweep cs

/-- Phase 2 of `remove_empty_dirs`: `match fs::read_dir(dir)` — on `Err`,
treat the directory as already gone and return `Ok(true)` without
deleting; on `Ok`, `entries.next().is_none()` holds exactly when the
listing is empty and iteration yields no `Err` entry, and then
`fs::remove_dir(dir)?` deletes the directory; otherwise `Ok(false)`. -/
def collapseJudge (dm : DirMeta) (cs : NodeList) :
    Except ErrCode Bool × Option Node :=
  match dm.readFail2 with
  | some _ => (.ok true, some (.dir dm cs))
  | none =>
    if cs.isNil && dm.iterFail.isNone then
      match dm.removeFail with
      | some e => (.error e, some (.dir dm cs))
      | none => (.ok true, none)
    else (.ok false, some (.dir dm cs))

mutual

/-- Embeds `remove_empty_dirs(dir)` from lib.rs on an existing path
(nonexistent paths are handled by `remove_empty_dirs_root`): a file is
not a directory, so `Ok(false)`; a directory goes through phase 1 —
`if let Ok(entries) = fs::read_dir(dir)`, a failed read skipping the
block silently, a failed `entry?` propagating, else the subdirectory
recursion — and then phase 2 (`collapseJudge`).  Returns the Rust result
and the resulting node (`none` when deleted). -/
def remove_empty_dirs : Node → Except ErrCode Bool × Option Node
  | .file fm => (.ok false, some (.file fm))
  | .dir dm cs =>
    match dm.readFail with
    | some _ => collapseJudge dm cs
    | none =>
      match dm.iterFail with
      | some e => (.error e, some (.dir dm cs))
      | none =>
        match collapseSubdirs cs with
        | (.error e, cs₁) => (.error e, some (.dir dm cs₁))
        | (.ok _, cs₁) => collapseJudge dm cs₁

/-- The recursion loop of phase 1: files are left in place (they are not
collected by the `path.is_dir()` filter), each subdirectory is collapsed
in order (`let _ = remove_empty_dirs(&subdir)?;` — result discarded,
error propagated, remaining entries untouched). -/
def collapseSubdirs : NodeList → Except ErrCode Unit × NodeList
  | .nil => (.ok (), .nil)
  | .cons (.file fm) rest =>
    match collapseSubdirs rest with
    | (r, rest₁) => (r, .cons (.file fm) rest₁)
  | .cons (.dir dm cs) rest =>
    match remove_empty_dirs (.dir dm cs) with
    | (.error e, n₁) => (.error e, optCons n₁ rest)
    | (.ok _, n₁) =>
      match collapseSubdirs rest with
      | (r, rest₁) => (r, optCons n₁ rest₁)

end

/-- Phase 1 of `remove_empty_dirs` as a standalone function, for use in
theorem statements: `if let Ok(entries) = fs::read_dir(dir)` — a failed
read is skipped silently; otherwise the entries are iterated (`entry?`
may propagate), subdirectories are collected and recursed into. -/
def collapsePhase1 (dm : DirMeta) (cs : NodeList) :
    Except ErrCode Unit × NodeList :=
  match dm.readFail with
  | some _ => (.ok (), cs)
  | none =>
    match dm.iterFail with
    | some e => (.error e, cs)
    | none => collapseSubdirs cs

/-- Embeds `remove_empty_dirs` called on an arbitrary path: `none` models
a path that does not exist (`!dir.exists()` → `Ok(false)`). -/
def remove_empty_dirs_root : Option Node → Except ErrCode Bool × Option Node
  | none => (.ok false, none)
  | some n => remove_empty_dirs n

/-- Embeds `clean_directory(target_dir)` from lib.rs: a nonexistent root
(`none`) and a non-directory root are skipped with `Ok(())`; otherwise
`remove_junk_files` runs, its error propagating immediately, then
`remove_empty_dirs`, its error propagating, else `Ok(())`. -/
def clean_directory : Option Node → Except ErrCode Unit × Option Node
  | none => (.ok (), none)
  | some (.file fm) => (.ok (), some (.file fm))
  | some (.dir dm cs) =>
    match remove_junk_files dm cs with
    | (.error e, cs₁) => (.error e, some (.dir dm cs₁))
    | (.ok _, cs₁) =>
      match remove_empty_dirs (.dir dm cs₁) with
      | (.error e, n₁) => (.error e, n₁)
      | (.ok _, n₁) => (.ok (), n₁)

/-! ## Observation functions

These fold over the modelled filesystem and are used only to state
properties: the names of all regular files in a subtree (in depth-first
enumeration order), and fault-freedom of the primitives a phase relies
on. -/

mutual

/-- Names of all regular files anywhere in a node's subtree, in
depth-first enumeration order. -/
def filesOfNode : Node → List OsName
  | .file fm => [fm.name]
  | .dir _ cs => filesOfList cs

/-- Names of all regular files anywhere under a listing. -/
def filesOfList : NodeList → List OsName
  | .nil => []
  | .cons n rest => filesOfNode n ++ filesOfList rest

end

/-- Names of all regular files of an optional node (`none`: deleted). -/
def filesOfOpt : Option Node → List OsName
  | none => []
  | some n => filesOfNode n

/-- Number of regular files in a listing's subtree whose decodable base
name matches the denylist. -/
def junkCount (cs : NodeList) : Nat :=
  (filesOfList cs).countP (fun nm => nm.isJunk)

/-- Does the node's subtree contain at least one regular file? -/
def containsFile (n : Node) : Bool :=
  !(filesOfNode n).isEmpty

mutual

/-- No injected fault on any primitive `remove_junk_files` may invoke in
this subtree: every directory enumerates and iterates cleanly and every
file can be removed. -/
def jfFaultFreeNode : Node → Bool
  | .file fm => fm.removeFail.isNone
  | .dir dm cs => dm.readFail.isNone && dm.iterFail.isNone && jfFaultFreeList cs

/-- `jfFaultFreeNode` over a listing. -/
def jfFaultFreeList : NodeList → Bool
  | .nil => true
  | .cons n rest => jfFaultFreeNode n && jfFaultFreeList rest

end

mutual

/-- No injected fault on the two primitives whose failure
`remove_empty_dirs` propagates: entry iteration (`entry?`) and directory
deletion (`fs::remove_dir`).  `readFail` and `readFail2` faults — the
whole-enumeration failures the code deliberately swallows — remain
unconstrained, as do file-removal faults, which the collapser never
triggers. -/
def edFaultFreeNode : Node → Bool
  | .file _ => true
  | .dir dm cs => dm.iterFail.isNone && dm.removeFail.isNone && edFaultFreeList cs

/-- `edFaultFreeNode` over a listing. -/
def edFaultFreeList : NodeList → Bool
  | .nil => true
  | .cons n rest => edFaultFreeNode n && edFaultFreeList rest

end

/-- A regular file with no injected fault. -/
def mkFile (nm : OsName) : Node :=
  .file ⟨nm, none⟩

/-- A directory with no injected faults. -/
def mkDir (nm : OsName) (cs : NodeList) : Node :=
  .dir ⟨nm, none, none, none, none⟩ cs

/-- Did the call succeed (`Ok`)? -/
def resultOk {α : Type} : Except ErrCode α → Bool
  | .ok _ => true
  | .error _ => false

/-- A fault-free directory metadata with a plain name. -/
def plainDM : DirMeta := ⟨.valid "d", none, none, none, none⟩

/-- The root of the full-clean scenario: `thumbs.db`, `normal.txt`, and an
empty subdirectory `empty_subdir`. -/
def sampleRoot : Node :=
  mkDir (.valid "root")
    (.cons (mkFile (.valid "thumbs.db"))
      (.cons (mkFile (.valid "normal.txt"))
        (.cons (mkDir (.valid "empty_subdir") .nil) .nil)))

/-! ## Agreement of the inlined recursion with the Rust entry points -/

/-- Visiting a subdirectory in the `remove_junk_files` loop is exactly a
recursive call of `remove_junk_files` on it, the directory itself
surviving with the updated listing. -/
theorem junkStep_dir (dm : DirMeta) (cs : NodeList) :
    junkStep (.dir dm cs) =
      ((remove_junk_files dm cs).1, some (.dir dm (remove_junk_files dm cs).2)) := by
  unfold junkStep remove_junk_files
  cases dm.readFail <;> cases dm.iterFail <;> rfl

/-- The directory case of `remove_empty_dirs` is exactly phase 1
(`collapsePhase1`, error propagating with the directory kept) followed by
phase 2 (`collapseJudge`) on the updated listing. -/
theorem remove_empty_dirs_dir (dm : DirMeta) (cs : NodeList) :
    remove_empty_dirs (.dir dm cs) =
      match collapsePhase1 dm cs with
      | (.error e, cs₁) => (.error e, some (.dir dm cs₁))
      | (.ok _, cs₁) => collapseJudge dm cs₁ := by
  unfold remove_empty_dirs collapsePhase1
  cases dm.readFail <;> cases dm.iterFail <;> rfl

/-! ## Helper lemmas -/

theorem filesOfList_optCons (o : Option Node) (l : NodeList) :
    filesOfList (optCons o l) = filesOfOpt o ++ filesOfList l := by
  cases o <;> rfl

/-- Phase 2 never touches a file: whatever branch `collapseJudge` takes,
the files under the judged directory are unchanged (deletion happens only
for an empty listing, which has no files). -/
theorem collapseJudge_files (dm : DirMeta) (cs : NodeList) :
    filesOfOpt (collapseJudge dm cs).2 = filesOfList cs := by
  obtain ⟨nm, rf, rf2, itf, rmf⟩ := dm
  unfold collapseJudge
  cases rf2 with
  | some e => rfl
  | none =>
    by_cases h : (cs.isNil && itf.isNone) = true
    · rw [if_pos h]
      cases rmf with
      | some e => rfl
      | none =>
        cases cs with
        | nil => rfl
        | cons n rest => simp [NodeList.isNil] at h
    · rw [if_neg h]
      rfl

mutual

/-- The collapser preserves every regular file in the subtree, on success
and on error alike. -/
theorem collapse_files_node (n : Node) :
    filesOfOpt (remove_empty_dirs n).2 = filesOfNode n := by
  cases n with
  | file fm => rfl
  | dir dm cs =>
    rw [remove_empty_dirs_dir]
    have h1 : filesOfList (collapsePhase1 dm cs).2 = filesOfList cs := by
      obtain ⟨nm, rf, rf2, itf, rmf⟩ := dm
      unfold collapsePhase1
      cases rf with
      | some e => rfl
      | none =>
        cases itf with
        | some e => rfl
        | none => exact collapse_files_list cs
    cases hp : collapsePhase1 dm cs with
    | mk r cs₁ =>
      rw [hp] at h1
      cases r with
      | error e =>
        simpa [filesOfOpt, filesOfNode] using h1
      | ok u =>
        rw [collapseJudge_files]
        exact h1

/-- The phase-1 loop preserves every regular file under the listing. -/
theorem collapse_files_list (cs : NodeList) :
    filesOfList (collapseSubdirs cs).2 = filesOfList cs := by
  cases cs with
  | nil => rfl
  | cons n rest =>
    cases n with
    | file fm =>
      simp only [collapseSubdirs]
      cases hr : collapseSubdirs rest with
      | mk r rest₁ =>
        have := collapse_files_list rest
        rw [hr] at this
        simpa [filesOfList, filesOfNode] using this
    | dir dm ccs =>
      simp only [collapseSubdirs]
      have hn := collapse_files_node (.dir dm ccs)
      have hrest := collapse_files_list rest
      cases hd : remove_empty_dirs (.dir dm ccs) with
      | mk r n₁ =>
        rw [hd] at hn
        cases r with
        | error e =>
          simp only []
          rw [filesOfList_optCons, hn]
          simp [filesOfList]
        | ok b =>
          cases hr : collapseSubdirs rest with
          | mk r₂ rest₁ =>
            rw [hr] at hrest
            simp only []
            rw [filesOfList_optCons, hn, hrest]
            simp [filesOfList]

end


theorem collapseJudge_ok (dm : DirMeta) (cs : NodeList) (h : dm.removeFail = none) :
    resultOk (collapseJudge dm cs).1 = true := by
  unfold collapseJudge
  cases hr2 : dm.readFail2 with
  | some e => rfl
  | none =>
    by_cases hc : (cs.isNil && dm.iterFail.isNone) = true
    · rw [if_pos hc, h]
      rfl
    · rw [if_neg hc]
      rfl

mutual

theorem collapse_ok_node (n : Node) (h : edFaultFreeNode n = true) :
    resultOk (remove_empty_dirs n).1 = true := by
  cases n with
  | file fm => rfl
  | dir dm cs =>
    simp only [edFaultFreeNode, Bool.and_eq_true] at h
    obtain ⟨⟨hitf, hrmf⟩, hlist⟩ := h
    rw [remove_empty_dirs_dir]
    have hrmf' : dm.removeFail = none := Option.isNone_iff_eq_none.mp hrmf
    have hp : resultOk (collapsePhase1 dm cs).1 = true := by
      unfold collapsePhase1
      cases hrf : dm.readFail with
      | some e => rfl
      | none =>
        rw [Option.isNone_iff_eq_none.mp hitf]
        exact collapse_ok_list cs hlist
    cases hp1 : collapsePhase1 dm cs with
    | mk r cs₁ =>
      rw [hp1] at hp
      cases r with
      | error e => simp [resultOk] at hp
      | ok u => exact collapseJudge_ok dm cs₁ hrmf'

theorem collapse_ok_list (cs : NodeList) (h : edFaultFreeList cs = true) :
    resultOk (collapseSubdirs cs).1 = true := by
  cases cs with
  | nil => rfl
  | cons n rest =>
    simp only [edFaultFreeList, Bool.and_eq_true] at h
    obtain ⟨hn, hrest⟩ := h
    cases n with
    | file fm =>
      simp only [collapseSubdirs]
      cases hr : collapseSubdirs rest with
      | mk r rest₁ =>
        have := collapse_ok_list rest hrest
        rw [hr] at this
        exact this
    | dir dm ccs =>
      simp only [collapseSubdirs]
      have hd := collapse_ok_node (.dir dm ccs) hn
      cases hdd : remove_empty_dirs (.dir dm ccs) with
      | mk r n₁ =>
        rw [hdd] at hd
        cases r with
        | error e => simp [resultOk] at hd
        | ok b =>
          cases hr : collapseSubdirs rest with
          | mk r₂ rest₁ =>
            have := collapse_ok_list rest hrest
            rw [hr] at this
            exact this

end


theorem isJunk_valid (s : String) :
    (OsName.valid s).isJunk = JUNK_FILES.contains s := rfl

theorem isJunk_invalid (c : Nat) : (OsName.invalid c).isJunk = false := rfl

mutual

theorem junkStep_ok_spec (n : Node) (k : Nat) (n₁ : Option Node)
    (h : junkStep n = (.ok k, n₁)) :
    filesOfOpt n₁ = (filesOfNode n).filter (fun nm => !nm.isJunk) ∧
    k = (filesOfNode n).countP (fun nm => nm.isJunk) := by
  cases n with
  | file fm =>
    obtain ⟨nm, rmf⟩ := fm
    cases nm with
    | valid s =>
      simp only [junkStep, OsName.toStr] at h
      by_cases hj : (JUNK_FILES.contains s) = true
      · rw [if_pos hj] at h
        cases rmf with
        | some e => simp at h
        | none =>
          simp only [Prod.mk.injEq, Except.ok.injEq] at h
          obtain ⟨hk, hn₁⟩ := h
          subst hk
          subst hn₁
          have hm : s ∈ JUNK_FILES := by simpa using hj
          simp [filesOfOpt, filesOfNode, isJunk_valid, hj, hm,
            List.filter_cons, List.countP_cons]
      · rw [if_neg hj] at h
        simp only [Prod.mk.injEq, Except.ok.injEq] at h
        obtain ⟨hk, hn₁⟩ := h
        subst hk
        subst hn₁
        have hm : s ∉ JUNK_FILES := by simpa using hj
        simp [filesOfOpt, filesOfNode, isJunk_valid, hj, hm,
          List.filter_cons, List.countP_cons]
    | invalid c =>
      simp only [junkStep, OsName.toStr, Prod.mk.injEq, Except.ok.injEq] at h
      obtain ⟨hk, hn₁⟩ := h
      subst hk
      subst hn₁
      simp [filesOfOpt, filesOfNode, isJunk_invalid,
        List.filter_cons, List.countP_cons]
  | dir dm cs =>
    simp only [junkStep] at h
    cases hrf : dm.readFail with
    | some e => rw [hrf] at h; simp at h
    | none =>
      rw [hrf] at h
      cases hitf : dm.iterFail with
      | some e => rw [hitf] at h; simp at h
      | none =>
        rw [hitf] at h
        cases hsw : junkSweep cs with
        | mk r cs₁ =>
          rw [hsw] at h
          simp only [Prod.mk.injEq] at h
          obtain ⟨hr, hn₁⟩ := h
          subst hn₁
          cases r with
          | error e => simp at hr
          | ok k₀ =>
            simp only [Except.ok.injEq] at hr
            subst hr
            have := junkSweep_ok_spec cs k₀ cs₁ (by rw [hsw])
            simpa [filesOfOpt, filesOfNode] using this

theorem junkSweep_ok_spec (cs : NodeList) (k : Nat) (cs₁ : NodeList)
    (h : junkSweep cs = (.ok k, cs₁)) :
    filesOfList cs₁ = (filesOfList cs).filter (fun nm => !nm.isJunk) ∧
    k = (filesOfList cs).countP (fun nm => nm.isJunk) := by
  cases cs with
  | nil =>
    simp only [junkSweep, Prod.mk.injEq, Except.ok.injEq] at h
    obtain ⟨hk, hcs⟩ := h
    subst hk
    subst hcs
    simp [filesOfList]
  | cons n rest =>
    simp only [junkSweep] at h
    cases hst : junkStep n with
    | mk r n₁ =>
      rw [hst] at h
      cases r with
      | error e => simp at h
      | ok k₀ =>
        cases hsw : junkSweep rest with
        | mk r₂ rest₁ =>
          rw [hsw] at h
          cases r₂ with
          | error e => simp at h
          | ok k₂ =>
            simp only [Prod.mk.injEq, Except.ok.injEq] at h
            obtain ⟨hk, hcs⟩ := h
            subst hk
            subst hcs
            obtain ⟨hf1, hc1⟩ := junkStep_ok_spec n k₀ n₁ hst
            obtain ⟨hf2, hc2⟩ := junkSweep_ok_spec rest k₂ rest₁ hsw
            constructor
            · rw [filesOfList_optCons, hf1, hf2]
              simp [filesOfList, List.filter_append]
            · rw [hc1, hc2]
              simp [filesOfList, List.countP_append]

end

mutual

theorem junkStep_frame (n : Node) :
    (filesOfOpt (junkStep n).2).filter (fun nm => !nm.isJunk) =
    (filesOfNode n).filter (fun nm => !nm.isJunk) := by
  cases n with
  | file fm =>
    obtain ⟨nm, rmf⟩ := fm
    cases nm with
    | valid s =>
      simp only [junkStep, OsName.toStr]
      by_cases hj : (JUNK_FILES.contains s) = true
      · rw [if_pos hj]
        cases rmf with
        | some e => rfl
        | none =>
          have hm : s ∈ JUNK_FILES := by simpa using hj
          simp [filesOfOpt, filesOfNode, isJunk_valid, hm, List.filter_cons]
      · rw [if_neg hj]
        rfl
    | invalid c => rfl
  | dir dm cs =>
    simp only [junkStep]
    cases hrf : dm.readFail with
    | some e => rfl
    | none =>
      cases hitf : dm.iterFail with
      | some e => rfl
      | none =>
        cases hsw : junkSweep cs with
        | mk r cs₁ =>
          have hs := junkSweep_frame cs
          rw [hsw] at hs
          simpa [filesOfOpt, filesOfNode] using hs

theorem junkSweep_frame (cs : NodeList) :
    (filesOfList (junkSweep cs).2).filter (fun nm => !nm.isJunk) =
    (filesOfList cs).filter (fun nm => !nm.isJunk) := by
  cases cs with
  | nil => rfl
  | cons n rest =>
    simp only [junkSweep]
    cases hst : junkStep n with
    | mk r n₁ =>
      have hn := junkStep_frame n
      rw [hst] at hn
      cases r with
      | error e =>
        rw [filesOfList_optCons]
        simp only [filesOfList, List.filter_append] at *
        rw [hn]
      | ok k =>
        cases hsw : junkSweep rest with
        | mk r₂ rest₁ =>
          have hr := junkSweep_frame rest
          rw [hsw] at hr
          cases r₂ <;>
            (rw [filesOfList_optCons]
             simp only [filesOfList, List.filter_append] at *
             rw [hn, hr])

end

mutual

theorem junkStep_idem (n : Node) (k : Nat) (n₂ : Node)
    (h : junkStep n = (.ok k, some n₂)) : junkStep n₂ = (.ok 0, some n₂) := by
  cases n with
  | file fm =>
    obtain ⟨nm, rmf⟩ := fm
    cases nm with
    | valid s =>
      simp only [junkStep, OsName.toStr] at h
      by_cases hj : (JUNK_FILES.contains s) = true
      · rw [if_pos hj] at h
        cases rmf with
        | some e => simp at h
        | none => simp at h
      · rw [if_neg hj] at h
        simp only [Prod.mk.injEq, Except.ok.injEq, Option.some.injEq] at h
        obtain ⟨hk, hn₂⟩ := h
        subst hn₂
        simp only [junkStep, OsName.toStr]
        rw [if_neg hj]
    | invalid c =>
      simp only [junkStep, OsName.toStr, Prod.mk.injEq, Except.ok.injEq,
        Option.some.injEq] at h
      obtain ⟨hk, hn₂⟩ := h
      subst hn₂
      rfl
  | dir dm cs =>
    simp only [junkStep] at h
    cases hrf : dm.readFail with
    | some e => rw [hrf] at h; simp at h
    | none =>
      rw [hrf] at h
      cases hitf : dm.iterFail with
      | some e => rw [hitf] at h; simp at h
      | none =>
        rw [hitf] at h
        cases hsw : junkSweep cs with
        | mk r cs₁ =>
          rw [hsw] at h
          cases r with
          | error e => simp at h
          | ok k₀ =>
            simp only [Prod.mk.injEq, Except.ok.injEq, Option.some.injEq] at h
            obtain ⟨hk, hn₂⟩ := h
            subst hn₂
            have hid := junkSweep_idem cs k₀ cs₁ (by rw [hsw])
            simp only [junkStep]
            rw [hrf, hitf, hid]

theorem junkSweep_idem (cs : NodeList) (k : Nat) (cs₁ : NodeList)
    (h : junkSweep cs = (.ok k, cs₁)) : junkSweep cs₁ = (.ok 0, cs₁) := by
  cases cs with
  | nil =>
    simp only [junkSweep, Prod.mk.injEq, Except.ok.injEq] at h
    obtain ⟨hk, hcs⟩ := h
    subst hcs
    rfl
  | cons n rest =>
    simp only [junkSweep] at h
    cases hst : junkStep n with
    | mk r n₁ =>
      rw [hst] at h
      cases r with
      | error e => simp at h
      | ok k₀ =>
        cases hsw : junkSweep rest with
        | mk r₂ rest₁ =>
          rw [hsw] at h
          cases r₂ with
          | error e => simp at h
          | ok k₂ =>
            simp only [Prod.mk.injEq, Except.ok.injEq] at h
            obtain ⟨hk, hcs⟩ := h
            subst hcs
            have hrest := junkSweep_idem rest k₂ rest₁ (by rw [hsw])
            cases n₁ with
            | none => simpa [optCons] using hrest
            | some n₂ =>
              have hstep := junkStep_idem n k₀ n₂ (by rw [hst])
              simp only [optCons, junkSweep]
              rw [hstep, hrest]

end

mutual

theorem junkStep_ff (n : Node) (h : jfFaultFreeNode n = true) :
    resultOk (junkStep n).1 = true := by
  cases n with
  | file fm =>
    obtain ⟨nm, rmf⟩ := fm
    have hrmf : rmf = none := by
      simpa [jfFaultFreeNode, Option.isNone_iff_eq_none] using h
    subst hrmf
    cases nm with
    | valid s =>
      simp only [junkStep, OsName.toStr]
      by_cases hj : (JUNK_FILES.contains s) = true
      · rw [if_pos hj]
        rfl
      · rw [if_neg hj]
        rfl
    | invalid c => rfl
  | dir dm cs =>
    simp only [jfFaultFreeNode, Bool.and_eq_true] at h
    obtain ⟨⟨hrf, hitf⟩, hlist⟩ := h
    simp only [junkStep]
    rw [Option.isNone_iff_eq_none.mp hrf, Option.isNone_iff_eq_none.mp hitf]
    cases hsw : junkSweep cs with
    | mk r cs₁ =>
      have hs := junkSweep_ff cs hlist
      rw [hsw] at hs
      cases r with
      | error e => simp [resultOk] at hs
      | ok k => rfl

theorem junkSweep_ff (cs : NodeList) (h : jfFaultFreeList cs = true) :
    resultOk (junkSweep cs).1 = true := by
  cases cs with
  | nil => rfl
  | cons n rest =>
    simp only [jfFaultFreeList, Bool.and_eq_true] at h
    obtain ⟨hn, hrest⟩ := h
    simp only [junkSweep]
    cases hst : junkStep n with
    | mk r n₁ =>
      have hsn := junkStep_ff n hn
      rw [hst] at hsn
      cases r with
      | error e => simp [resultOk] at hsn
      | ok k =>
        cases hsw : junkSweep rest with
        | mk r₂ rest₁ =>
          have hsr := junkSweep_ff rest hrest
          rw [hsw] at hsr
          cases r₂ with
          | error e => simp [resultOk] at hsr
          | ok k₂ => rfl

end


/-! ## Claim theorems -/


/-! ## Concrete fixtures for claim witnesses -/

theorem collapseJudge_deleted (dm : DirMeta) (cs : NodeList)
    (h : (collapseJudge dm cs).2 = none) :
    cs = .nil ∧ dm.readFail2 = none ∧ dm.iterFail = none := by
  unfold collapseJudge at h
  cases hr2 : dm.readFail2 with
  | some e => rw [hr2] at h; simp at h
  | none =>
    rw [hr2] at h
    by_cases hc : (cs.isNil && dm.iterFail.isNone) = true
    · simp only [Bool.and_eq_true] at hc
      obtain ⟨hnil, hitf⟩ := hc
      refine ⟨?_, rfl, Option.isNone_iff_eq_none.mp hitf⟩
      cases cs with
      | nil => rfl
      | cons n rest => simp [NodeList.isNil] at hnil
    · rw [if_neg hc] at h
      simp at h

/-- C1: `remove_empty_dirs` deletes a directory only if phase 1 (the
recursive resolution of all its subdirectories) completed and the
re-enumerated listing is empty; a directory whose subtree still holds a
regular file is never deleted — applied at any ancestor of the file, this
shows no ancestor is deleted either. -/
theorem claim_c1_collapse_deletes_only_empty (dm : DirMeta) (cs : NodeList) :
    ((remove_empty_dirs (.dir dm cs)).2 = none →
      (collapsePhase1 dm cs).1 = .ok () ∧ (collapsePhase1 dm cs).2 = .nil ∧
        dm.readFail2 = none ∧ dm.iterFail = none) ∧
    (containsFile (.dir dm cs) = true →
      (remove_empty_dirs (.dir dm cs)).2 ≠ none) := by
  constructor
  · intro hnone
    rw [remove_empty_dirs_dir] at hnone
    cases hp : collapsePhase1 dm cs with
    | mk r cs₁ =>
      rw [hp] at hnone
      cases r with
      | error e => simp at hnone
      | ok u =>
        cases u
        exact ⟨rfl, collapseJudge_deleted dm cs₁ hnone⟩
  · intro hc hnone
    have hfiles := collapse_files_node (.dir dm cs)
    rw [hnone] at hfiles
    simp only [containsFile] at hc
    rw [← hfiles] at hc
    simp [filesOfOpt] at hc

theorem claim_c1_collapse_deletes_only_empty_witness :
    ((collapsePhase1 plainDM .nil).1 = .ok () ∧
      (collapsePhase1 plainDM .nil).2 = .nil ∧
      plainDM.readFail2 = none ∧ plainDM.iterFail = none) ∧
    (remove_empty_dirs (.dir plainDM (.cons (mkFile (.valid "keep.txt")) .nil))).2 ≠
      none :=
  ⟨(claim_c1_collapse_deletes_only_empty plainDM .nil).1 rfl,
   (claim_c1_collapse_deletes_only_empty plainDM
      (.cons (mkFile (.valid "keep.txt")) .nil)).2 rfl⟩

/-- C2: when `remove_junk_files` succeeds, no file with a decodable
denylisted base name remains anywhere in the subtree, and the returned
count is the number of such files in the original subtree. -/
theorem claim_c2_purge_complete (dm : DirMeta) (cs : NodeList) (k : Nat)
    (cs₁ : NodeList) (h : remove_junk_files dm cs = (.ok k, cs₁)) :
    junkCount cs₁ = 0 ∧ k = junkCount cs := by
  unfold remove_junk_files at h
  cases hrf : dm.readFail with
  | some e => rw [hrf] at h; simp at h
  | none =>
    rw [hrf] at h
    cases hitf : dm.iterFail with
    | some e => rw [hitf] at h; simp at h
    | none =>
      rw [hitf] at h
      obtain ⟨hf, hc⟩ := junkSweep_ok_spec cs k cs₁ h
      constructor
      · rw [junkCount, hf]
        rw [List.countP_filter]
        simp
      · exact hc

theorem claim_c2_purge_complete_witness :
    junkCount (.cons (mkFile (.valid "normal.txt")) .nil) = 0 ∧
    1 = junkCount (.cons (mkFile (.valid "thumbs.db"))
          (.cons (mkFile (.valid "normal.txt")) .nil)) :=
  claim_c2_purge_complete plainDM
    (.cons (mkFile (.valid "thumbs.db"))
      (.cons (mkFile (.valid "normal.txt")) .nil))
    1 (.cons (mkFile (.valid "normal.txt")) .nil) rfl

/-- C3: `remove_junk_files` never deletes a file whose base name does not
match the denylist (exactly, case-sensitively) — the non-matching files,
undecodable names included, are preserved verbatim on every run, error or
not — and when no filesystem fault is injected the run succeeds even in
the presence of undecodable names, which are skipped silently. -/
theorem claim_c3_purge_frame (dm : DirMeta) (cs : NodeList) :
    (filesOfList (remove_junk_files dm cs).2).filter (fun nm => !nm.isJunk) =
      (filesOfList cs).filter (fun nm => !nm.isJunk) ∧
    (jfFaultFreeNode (.dir dm cs) = true →
      resultOk (remove_junk_files dm cs).1 = true) := by
  constructor
  · unfold remove_junk_files
    cases hrf : dm.readFail with
    | some e => rfl
    | none =>
      cases hitf : dm.iterFail with
      | some e => rfl
      | none => exact junkSweep_frame cs
  · intro h
    simp only [jfFaultFreeNode, Bool.and_eq_true] at h
    obtain ⟨⟨hrf, hitf⟩, hlist⟩ := h
    unfold remove_junk_files
    rw [Option.isNone_iff_eq_none.mp hrf, Option.isNone_iff_eq_none.mp hitf]
    exact junkSweep_ff cs hlist

theorem claim_c3_purge_frame_witness :
    (filesOfList (remove_junk_files plainDM
        (.cons (.file ⟨.invalid 255, none⟩)
          (.cons (mkFile (.valid "Thumbs.db")) .nil))).2).filter
        (fun nm => !nm.isJunk) =
      (filesOfList (.cons (.file ⟨.invalid 255, none⟩)
          (.cons (mkFile (.valid "Thumbs.db")) .nil))).filter
        (fun nm => !nm.isJunk) ∧
    resultOk (remove_junk_files plainDM
        (.cons (.file ⟨.invalid 255, none⟩)
          (.cons (mkFile (.valid "Thumbs.db")) .nil))).1 = true :=
  ⟨(claim_c3_purge_frame plainDM
      (.cons (.file ⟨.invalid 255, none⟩)
        (.cons (mkFile (.valid "Thumbs.db")) .nil))).1,
   (claim_c3_purge_frame plainDM
      (.cons (.file ⟨.invalid 255, none⟩)
        (.cons (mkFile (.valid "Thumbs.db")) .nil))).2 rfl⟩

/-- C4: cleaning a root holding exactly `thumbs.db`, `normal.txt` and an
empty `empty_subdir` succeeds and leaves exactly `normal.txt` in the
still-existing root: `thumbs.db` and `empty_subdir` are gone. -/
theorem claim_c4_clean_scenario :
    clean_directory (some sampleRoot) =
      (.ok (), some (mkDir (.valid "root")
        (.cons (mkFile (.valid "normal.txt")) .nil))) := rfl

/-- C5: collapsing a nonexistent path, or an existing path that is a file
rather than a directory, returns `Ok(false)` and leaves the filesystem
unchanged. -/
theorem claim_c5_collapse_skip_nonexistent :
    remove_empty_dirs_root none = (.ok false, none) ∧
    ∀ fm : FileMeta,
      remove_empty_dirs_root (some (.file fm)) = (.ok false, some (.file fm)) :=
  ⟨rfl, fun _ => rfl⟩

/-- C6: cleaning a nonexistent root, or a root that is a file rather than
a directory, returns `Ok(())` and changes nothing. -/
theorem claim_c6_clean_skip_nonexistent :
    clean_directory none = (.ok (), none) ∧
    ∀ fm : FileMeta,
      clean_directory (some (.file fm)) = (.ok (), some (.file fm)) :=
  ⟨rfl, fun _ => rfl⟩

/-- C7: when the re-enumeration after the subdirectory recursion fails —
with any error code — and phase 1 itself succeeded, `remove_empty_dirs`
returns `Ok(true)` without raising an error and without performing its
own deletion: the directory survives with exactly the listing phase 1
left. -/
theorem claim_c7_collapse_reenumeration_failure (dm : DirMeta) (cs : NodeList)
    (e : ErrCode) (h2 : dm.readFail2 = some e)
    (h1 : resultOk (collapsePhase1 dm cs).1 = true) :
    remove_empty_dirs (.dir dm cs) =
      (.ok true, some (.dir dm (collapsePhase1 dm cs).2)) := by
  rw [remove_empty_dirs_dir]
  cases hp : collapsePhase1 dm cs with
  | mk r cs₁ =>
    rw [hp] at h1
    cases r with
    | error e₀ => simp [resultOk] at h1
    | ok u =>
      cases u
      unfold collapseJudge
      rw [h2]

theorem claim_c7_collapse_reenumeration_failure_witness :
    remove_empty_dirs (.dir ⟨.valid "d", none, some 7, none, none⟩
        (.cons (mkFile (.valid "a.txt")) .nil)) =
      (.ok true, some (.dir ⟨.valid "d", none, some 7, none, none⟩
        (collapsePhase1 ⟨.valid "d", none, some 7, none, none⟩
          (.cons (mkFile (.valid "a.txt")) .nil)).2)) :=
  claim_c7_collapse_reenumeration_failure
    ⟨.valid "d", none, some 7, none, none⟩
    (.cons (mkFile (.valid "a.txt")) .nil) 7 rfl rfl

/-- C8: `remove_empty_dirs` propagates an error only from entry iteration
(`entry?`) or directory deletion (`fs::remove_dir`): on any tree in which
those two primitives never fail — whole-enumeration failures and
file-removal faults may be injected everywhere — every call returns `Ok`,
as do calls on nonexistent and non-directory paths. -/
theorem claim_c8_collapse_error_sources (x : Option Node)
    (h : ∀ n, x = some n → edFaultFreeNode n = true) :
    resultOk (remove_empty_dirs_root x).1 = true := by
  cases x with
  | none => rfl
  | some n => exact collapse_ok_node n (h n rfl)

theorem claim_c8_collapse_error_sources_witness :
    resultOk (remove_empty_dirs_root (some (.dir
        ⟨.valid "d", some 3, some 4, none, none⟩
        (.cons (.dir ⟨.valid "e", some 5, none, none, none⟩ .nil) .nil)))).1 =
      true :=
  claim_c8_collapse_error_sources
    (some (.dir ⟨.valid "d", some 3, some 4, none, none⟩
      (.cons (.dir ⟨.valid "e", some 5, none, none, none⟩ .nil) .nil)))
    (fun n hn => by cases hn; rfl)

/-- C9: `remove_junk_files` is idempotent on the filesystem: after a
successful run, running it again on the resulting tree succeeds, deletes
nothing, and returns zero. -/
theorem claim_c9_purge_idempotent (dm : DirMeta) (cs : NodeList) (k : Nat)
    (cs₁ : NodeList) (h : remove_junk_files dm cs = (.ok k, cs₁)) :
    remove_junk_files dm cs₁ = (.ok 0, cs₁) := by
  unfold remove_junk_files at h ⊢
  cases hrf : dm.readFail with
  | some e => rw [hrf] at h; simp at h
  | none =>
    rw [hrf] at h
    cases hitf : dm.iterFail with
    | some e => rw [hitf] at h; simp at h
    | none =>
      rw [hitf] at h
      exact junkSweep_idem cs k cs₁ h

theorem claim_c9_purge_idempotent_witness :
    remove_junk_files plainDM (.cons (mkFile (.valid "normal.txt")) .nil) =
      (.ok 0, .cons (mkFile (.valid "normal.txt")) .nil) :=
  claim_c9_purge_idempotent plainDM
    (.cons (mkFile (.valid "thumbs.db"))
      (.cons (mkFile (.valid "normal.txt")) .nil))
    1 (.cons (mkFile (.valid "normal.txt")) .nil) rfl

/-- C10: the denylist is exactly `["thumbs.db", ".DS_Store"]` in that
order, and `remove_junk_files` deletes a lone file if and only if its
base name decodes to one of those two strings. -/
theorem claim_c10_denylist :
    JUNK_FILES = ["thumbs.db", ".DS_Store"] ∧
    ∀ nm : OsName,
      (remove_junk_files plainDM (.cons (mkFile nm) .nil) =
        if nm.isJunk then (.ok 1, .nil)
        else (.ok 0, .cons (mkFile nm) .nil)) ∧
      (nm.isJunk = true ↔
        nm.toStr = some "thumbs.db" ∨ nm.toStr = some ".DS_Store") := by
  refine ⟨rfl, fun nm => ⟨?_, ?_⟩⟩
  · cases nm with
    | valid s =>
      simp only [remove_junk_files, junkSweep, junkStep, plainDM, mkFile,
        OsName.toStr, isJunk_valid]
      by_cases hj : (JUNK_FILES.contains s) = true
      · have hm : s ∈ JUNK_FILES := by simpa using hj
        simp [hj, hm, optCons]
      · have hm : s ∉ JUNK_FILES := by simpa using hj
        simp [hj, hm, optCons]
    | invalid c => rfl
  · cases nm with
    | valid s =>
      simp [isJunk_valid, OsName.toStr, JUNK_FILES, List.contains_cons]
    | invalid c =>
      simp [isJunk_invalid, OsName.toStr]

end Eptdir
